import Mathlib

/-!
Verification of the digital-eval OCR evaluation tool (Rust sources under
`src/`).  The development shallowly embeds the Rust code: Rust `String`
values are `List Char` (written `Str`), `f64` arithmetic is modelled
exactly over `ℚ`, `usize` is `ℕ`, fallible functions return
`Except`/`Option`.  Unicode normalization, Unicode lower-casing and the
Unicode alphabetic classification have no finite embedding, so they are
abstract function parameters; all theorems hold for every choice of these
parameters.  The XML layer (`roxmltree`) is embedded at the boundary of the
element data the parsers read: a PAGE `TextRegion` element is given by its
`id` attribute, its parsed coordinates and the parsed `TextLine` results,
an ALTO `TextBlock` by its `ID`, box and the `String` element contents.
-/

/-- Rust `String` contents, modelled as its sequence of Unicode scalar
values (`char`s). -/
abbrev Str := List Char

/-- Rust `char::is_whitespace`, restricted to the whitespace characters
Lean models; all whitespace appearing in the analysed code paths
(`' '`, `'\t'`, `'\n'`, `'\r'`) is covered. -/
def isWS (c : Char) : Bool := c.isWhitespace

/-- Rust `str::trim_start`: drop leading whitespace. -/
def ltrim (s : Str) : Str := s.dropWhile isWS

/-- Rust `str::trim_end`: drop trailing whitespace. -/
def rtrim (s : Str) : Str := (s.reverse.dropWhile isWS).reverse

/-- Rust `str::trim`: drop whitespace at both ends. -/
def trimChars (s : Str) : Str := ltrim (rtrim s)

/-- The `push_str(text); push('\n')` loop shape used by both parsers to
accumulate full text: every piece is followed by one newline. -/
def joinTrailNl (ts : List Str) : Str := (ts.map (fun t => t ++ ['\n'])).flatten

/-- Texts joined by single newlines (no trailing newline); the
"newline joins" of the round-trip property. -/
def joinNl : List Str → Str
  | [] => []
  | [t] => t
  | t :: u :: ts => t ++ '\n' :: joinNl (u :: ts)

/-- Rust `str::len`: the UTF-8 byte length of a string. -/
def utf8Len (s : Str) : ℕ := (s.map Char.utf8Size).sum

/-- Rust `str::split_whitespace`: split on whitespace runs, no empty
tokens. -/
def splitWs (s : Str) : List Str :=
  (List.splitOnP isWS s).filter (fun t => !t.isEmpty)

/-- Lexicographic order on strings (Rust `Ord for String`), used only to
model `Vec::sort`. -/
def strLe : Str → Str → Bool
  | [], _ => true
  | _ :: _, [] => false
  | a :: as_, b :: bs => if a < b then true else if a = b then strLe as_ bs else false

/-- Rust `Vec::dedup`: remove consecutive duplicates. -/
def dedupConsec : List Str → List Str
  | [] => []
  | [a] => [a]
  | a :: b :: l => if a = b then dedupConsec (b :: l) else a :: dedupConsec (b :: l)

/-- Model of `strsim::levenshtein`: the classical character edit distance
(insert / delete / substitute, unit costs). -/
def strsim_levenshtein : Str → Str → ℕ
  | [], ys => ys.length
  | _ :: xs, [] => xs.length + 1
  | x :: xs, y :: ys =>
    if x = y then strsim_levenshtein xs ys
    else 1 + min (strsim_levenshtein xs (y :: ys)) (min (strsim_levenshtein (x :: xs) ys) (strsim_levenshtein xs ys))
termination_by xs ys => xs.length + ys.length
decreasing_by all_goals simp_arith [List.length]

/-- Comparison by declared reading-order index, the key of
`sort_by_key(|(_, index)| *index)`. -/
def keyLe (p q : String × ℕ) : Prop := p.2 ≤ q.2

instance : DecidableRel keyLe := fun p q => inferInstanceAs (Decidable (p.2 ≤ q.2))

instance : IsTotal (String × ℕ) keyLe := ⟨fun p q => Nat.le_total p.2 q.2⟩

instance : IsTrans (String × ℕ) keyLe := ⟨fun _ _ _ h h2 => Nat.le_trans h h2⟩

/-- Model of `geometry::BoundingBox` (f64 corners, over `ℚ`). -/
structure BoundingBox where
  min_x : ℚ
  min_y : ℚ
  max_x : ℚ
  max_y : ℚ
deriving DecidableEq

/-- Model of `digital_object::Word`. -/
structure Word where
  text : Str
  confidence : Option ℚ
  bounding_box : Option BoundingBox
deriving DecidableEq

/-- Model of `digital_object::TextLine`. -/
structure TextLine where
  id : Option String
  text : Str
  bounding_box : Option BoundingBox
  words : List Word
deriving DecidableEq

/-- Model of `digital_object::Region`. -/
structure Region where
  id : Option String
  text : Str
  bounding_box : Option BoundingBox
  lines : List TextLine
deriving DecidableEq

/-- A PAGE `TextRegion` element as `page_parser::parse_text_region` reads
it: the `id` attribute, the box parsed from its `Coords` child, and the
results of `parse_text_line` on its `TextLine` descendants in document
order. -/
structure PageRegionSrc where
  id : Option String
  bounding_box : Option BoundingBox
  lines : List TextLine
deriving DecidableEq

/-- Model of `page_parser::parse_text_region`: region text is the line texts each
followed by a newline, trimmed. -/
def parse_text_region (src : PageRegionSrc) : Region :=
  { id := src.id,
    text := trimChars (joinTrailNl (src.lines.map (fun l => l.text))),
    bounding_box := src.bounding_box,
    lines := src.lines }

/-- A PAGE document as the parser reads it: the `RegionRefIndexed`
elements (regionRef, parsed index) in document order, and the `TextRegion`
elements in document order. -/
structure PageDoc where
  readingOrderSrc : List (String × ℕ)
  regionsSrc : List PageRegionSrc

/-- Model of `HashMap::insert` on the reading-order map: overwrite the binding if
the key is present, otherwise add it. -/
def roInsert (m : List (String × ℕ)) (k : String) (v : ℕ) : List (String × ℕ) :=
  if m.any (fun p => p.1 == k) then m.map (fun p => if p.1 == k then (k, v) else p)
  else m ++ [(k, v)]

/-- Model of `page_parser::extract_reading_order`: build the regionRef → index map
from the `RegionRefIndexed` elements. -/
def extract_reading_order (d : PageDoc) : List (String × ℕ) :=
  d.readingOrderSrc.foldl (fun m kv => roInsert m kv.1 kv.2) []

/-- Model of `HashMap::get` on the reading-order map. -/
def roLookup (m : List (String × ℕ)) (k : String) : Option ℕ := List.lookup k m

/-- Model of `page_parser::apply_reading_order`: partition the ids in document
order into those with an explicit index and those without, sort the
indexed ones by index (`sort_by_key` is a stable sort, modelled by
insertion sort with `≤` on the key), and append the non-indexed ones. -/
def apply_reading_order (reading_order : List (String × ℕ)) (dom_order : List String) :
    List String :=
  let ordered_regions : List (String × ℕ) :=
    dom_order.filterMap (fun rid => (roLookup reading_order rid).map (fun idx => (rid, idx)))
  let unordered_regions : List String :=
    dom_order.filter (fun rid => (roLookup reading_order rid).isNone)
  (List.insertionSort keyLe ordered_regions).map Prod.fst ++ unordered_regions

/-- Model of `HashMap::insert` on the id → Region map. -/
def rmInsert (m : List (String × Region)) (k : String) (v : Region) :
    List (String × Region) :=
  if m.any (fun p => p.1 == k) then m.map (fun p => if p.1 == k then (k, v) else p)
  else m ++ [(k, v)]

/-- Model of `HashMap::remove` on the id → Region map: the removed value (if any)
and the remaining map. -/
def rmRemove : List (String × Region) → String → Option Region × List (String × Region)
  | [], _ => (none, [])
  | p :: rest, k =>
    if p.1 = k then (some p.2, rest)
    else
      let r := rmRemove rest k
      (r.1, p :: r.2)

/-- One iteration of the region-collection loop of
`parse_page_document` (lines 20–32): an identified region goes into the
map and the id list, a region without an id goes directly into the output
vector. -/
def collectStep (acc : List (String × Region) × List String × List Region)
    (src : PageRegionSrc) : List (String × Region) × List String × List Region :=
  let region := parse_text_region src
  match region.id with
  | some rid => (rmInsert acc.1 rid region, acc.2.1 ++ [rid], acc.2.2)
  | none => (acc.1, acc.2.1, acc.2.2 ++ [region])

/-- One iteration of the final emission loop of `parse_page_document`
(lines 42–48): remove the id from the map; on a hit push the region text
plus a newline and the region. -/
def emitStep (st : List (String × Region) × Str × List Region) (rid : String) :
    List (String × Region) × Str × List Region :=
  match rmRemove st.1 rid with
  | (some region, m2) => (m2, st.2.1 ++ region.text ++ ['\n'], st.2.2 ++ [region])
  | (none, m2) => (m2, st.2.1, st.2.2)

/-- Model of `page_parser::parse_page_document`: collect regions (identified ones
into the map and the id list, ones without an id directly into the output
vector), resolve the id order, then emit text and regions by removing ids
from the map in resolved order. -/
def parse_page_document (d : PageDoc) : Str × List Region :=
  let reading_order := extract_reading_order d
  let collected := d.regionsSrc.foldl collectStep
    (([], [], []) : List (String × Region) × List String × List Region)
  let ordered_ids :=
    if reading_order ≠ [] then apply_reading_order reading_order collected.2.1
    else collected.2.1
  let final := ordered_ids.foldl emitStep
    ((collected.1, [], collected.2.2) : List (String × Region) × Str × List Region)
  (trimChars final.2.1, final.2.2)

/-- An ALTO `String` element that carries a `CONTENT` attribute (elements
without one are skipped by the parser), with its optional parsed `WC`
confidence and box. -/
structure AltoStringSrc where
  content : Str
  wc : Option ℚ
  bounding_box : Option BoundingBox
deriving DecidableEq

/-- An ALTO `TextLine` element as `alto_parser::parse_text_line` reads
it. -/
structure AltoLineSrc where
  id : Option String
  bounding_box : Option BoundingBox
  strings : List AltoStringSrc
deriving DecidableEq

/-- An ALTO `TextBlock` element as `alto_parser::parse_text_block` reads
it. -/
structure AltoBlockSrc where
  id : Option String
  bounding_box : Option BoundingBox
  lines : List AltoLineSrc
deriving DecidableEq

/-- Model of `alto_parser::parse_text_line`: word contents joined by single spaces
(a space is pushed only when the accumulated text is non-empty). -/
def alto_parse_text_line (src : AltoLineSrc) : TextLine :=
  { id := src.id,
    text := src.strings.foldl
      (fun acc s => if acc.isEmpty then acc ++ s.content else acc ++ ' ' :: s.content) [],
    bounding_box := src.bounding_box,
    words := src.strings.map
      (fun s => { text := s.content, confidence := s.wc, bounding_box := s.bounding_box }) }

/-- Model of `alto_parser::parse_text_block`: region text is the line texts each
followed by a newline, trimmed. -/
def parse_text_block (src : AltoBlockSrc) : Region :=
  let lines := src.lines.map alto_parse_text_line
  { id := src.id,
    text := trimChars (joinTrailNl (lines.map (fun l => l.text))),
    bounding_box := src.bounding_box,
    lines := lines }

/-- Model of `alto_parser::parse_alto_document`: every `TextBlock` becomes a region
in document order; the full text is the region texts each followed by a
newline, trimmed. -/
def parse_alto_document (blocks : List AltoBlockSrc) : Str × List Region :=
  let regions := blocks.map parse_text_block
  (trimChars (joinTrailNl (regions.map (fun r => r.text))), regions)

/-- Model of `digital_object::FormatType`. -/
inductive FormatType
  | Alto
  | Page
  | Text
  | Unknown
deriving DecidableEq

/-- Model of `digital_object::DigitalObject`. -/
structure DigitalObject where
  format_type : FormatType
  file_path : Option String
  text_content : Str
  regions : List Region

/-- Rust `str::contains` for a literal pattern: substring test. -/
def strContains (hay needle : Str) : Bool := hay.tails.any (fun t => needle.isPrefixOf t)

def marker_alto1 : Str := ['<', 'a', 'l', 't', 'o']

def marker_alto2 : Str := ['a', 'l', 't', 'o', '-']

def marker_page1 : Str := ['<', 'P', 'c', 'G', 't', 's']

def marker_page2 : Str := ['p', 'a', 'g', 'e', '-']

def marker_xml : Str := ['<', '?', 'x', 'm', 'l']

def marker_string : Str := ['S', 't', 'r', 'i', 'n', 'g']

def marker_content : Str := ['C', 'O', 'N', 'T', 'E', 'N', 'T']

def marker_textline : Str := ['T', 'e', 'x', 't', 'L', 'i', 'n', 'e']

def marker_textequiv : Str := ['T', 'e', 'x', 't', 'E', 'q', 'u', 'i', 'v']

/-- Model of `DigitalObject::detect_format`: content sniffing, first match wins. -/
def detect_format (content : Str) : FormatType :=
  if strContains content marker_alto1 || strContains content marker_alto2 then .Alto
  else if strContains content marker_page1 || strContains content marker_page2 then .Page
  else if marker_xml.isPrefixOf content then
    if strContains content marker_string && strContains content marker_content then .Alto
    else if strContains content marker_textline && strContains content marker_textequiv then .Page
    else .Unknown
  else .Text

/-- Load failures of `DigitalObject::from_file` (file read errors are
outside the embedding): malformed XML, or unrecognized content. -/
inductive LoadErr
  | ParseErr
  | FormatErr
deriving DecidableEq

/-- Model of `DigitalObject::from_text`: plain text keeps the whole content and has
no regions. -/
def DigitalObject.from_text (content : Str) (file_path : Option String) : DigitalObject :=
  { format_type := .Text, file_path := file_path, text_content := content, regions := [] }

/-- Model of `DigitalObject::from_file` after the file read: detect the format and
dispatch.  The XML well-formedness layer is abstracted as the oracles
`parseAltoXml` / `parsePageXml`, which return the element-level data the
dialect parsers walk (or `none` for malformed XML). -/
def DigitalObject.from_file (parseAltoXml : Str → Option (List AltoBlockSrc))
    (parsePageXml : Str → Option PageDoc) (file_path : Option String) (content : Str) :
    Except LoadErr DigitalObject :=
  match detect_format content with
  | .Alto =>
    match parseAltoXml content with
    | some blocks =>
      let res := parse_alto_document blocks
      .ok { format_type := .Alto, file_path := file_path, text_content := res.1, regions := res.2 }
    | none => .error .ParseErr
  | .Page =>
    match parsePageXml content with
    | some d =>
      let res := parse_page_document d
      .ok { format_type := .Page, file_path := file_path, text_content := res.1, regions := res.2 }
    | none => .error .ParseErr
  | .Text => .ok (DigitalObject.from_text content file_path)
  | .Unknown => .error .FormatErr

/-- Model of `digital_object::DocumentStatistics`. -/
structure DocumentStatistics where
  n_regions : ℕ
  n_lines : ℕ
  n_words : ℕ
  n_chars : ℕ
deriving DecidableEq

/-- Model of `DigitalObject::get_statistics`: region/line/word counts plus
`text_content.len()` — the UTF-8 byte length. -/
def DigitalObject.get_statistics (d : DigitalObject) : DocumentStatistics :=
  { n_regions := d.regions.length,
    n_lines := (d.regions.map (fun r => r.lines.length)).sum,
    n_words := ((d.regions.map (fun r => r.lines)).flatten.map (fun l => l.words.length)).sum,
    n_chars := utf8Len d.text_content }

/-- Lexicographic string comparison as a relation, for `Vec::sort` on
tokens. -/
def strLeP (a b : Str) : Prop := strLe a b = true

instance : DecidableRel strLeP := fun a b => inferInstanceAs (Decidable (strLe a b = true))

/-- Model of `LetterPreprocessor::preprocess_letters`: normalize, then keep only
alphabetic characters (`char::is_alphabetic` is the abstract parameter
`isAlphabetic`). -/
def LetterPreprocessor.preprocess_letters (isAlphabetic : Char → Bool) (norm : Str → Str)
    (text : Str) : Str :=
  (norm text).filter isAlphabetic

/-- Model of `WordPreprocessor::tokenize`: normalize, then split on whitespace
runs. -/
def WordPreprocessor.tokenize (norm : Str → Str) (text : Str) : List Str :=
  splitWs (norm text)

/-- Model of `WordPreprocessor::bag_of_words`: tokenize, sort, remove consecutive
duplicates. -/
def WordPreprocessor.bag_of_words (norm : Str → Str) (text : Str) : List Str :=
  dedupConsec (List.insertionSort strLeP (WordPreprocessor.tokenize norm text))

/-- Model of `StopwordsFilter::load_stopwords`: the built-in German list for
`deu`/`de`/`german`, the empty list for every other language. -/
def StopwordsFilter.load_stopwords (language : String) : List Str :=
  if language = "deu" ∨ language = "de" ∨ language = "german" then
    (["der", "die", "das", "den", "dem", "des",
      "ein", "eine", "einer", "eines", "einem", "einen",
      "und", "oder", "aber", "wenn", "als", "nach",
      "in", "an", "auf", "bei", "mit", "von", "zu",
      "ist", "sind", "war", "waren", "hat", "haben"].map String.toList)
  else []

/-- Model of `StopwordsFilter::filter_tokens`: drop tokens whose lower-cased form
(`String::to_lowercase` is the abstract parameter `lower`) is a
stopword. -/
def StopwordsFilter.filter_tokens (stopwords : List Str) (lower : Str → Str)
    (tokens : List Str) : List Str :=
  tokens.filter (fun t => !stopwords.contains (lower t))

/-- The one metric error: `calculate` invoked without a reference. -/
inductive MetricError
  | MissingReferenceError
deriving DecidableEq

/-- Model of `metrics::levenshtein_similarity`: 100 · (1 − distance / max_len),
where `max_len` is the larger `str::len` (UTF-8 byte length) and the
distance counts characters; empty reference short-circuits. -/
def levenshtein_similarity (candidate reference : Str) : ℚ :=
  if reference.isEmpty then (if candidate.isEmpty then 100 else 0)
  else
    let distance := strsim_levenshtein candidate reference
    let max_len := max (utf8Len reference) (utf8Len candidate)
    if max_len = 0 then 100
    else (1 - (distance : ℚ) / (max_len : ℚ)) * 100

/-- Model of `MetricChars::calculate`: normalize both texts, then edit-distance
similarity. -/
def MetricChars.calculate (norm : Str → Str) (candidate : Str) (reference : Option Str) :
    Except MetricError ℚ :=
  match reference with
  | none => .error .MissingReferenceError
  | some reference => .ok (levenshtein_similarity (norm candidate) (norm reference))

/-- Model of `MetricLetters::calculate`: letter-filter both texts, then
edit-distance similarity. -/
def MetricLetters.calculate (isAlphabetic : Char → Bool) (norm : Str → Str)
    (candidate : Str) (reference : Option Str) : Except MetricError ℚ :=
  match reference with
  | none => .error .MissingReferenceError
  | some reference =>
    .ok (levenshtein_similarity
      (LetterPreprocessor.preprocess_letters isAlphabetic norm candidate)
      (LetterPreprocessor.preprocess_letters isAlphabetic norm reference))

/-- Rust `Vec::join(" ")`. -/
def joinSpace : List Str → Str
  | [] => []
  | [t] => t
  | t :: u :: ts => t ++ ' ' :: joinSpace (u :: ts)

/-- Model of `MetricWords::calculate`: tokenize both texts, rejoin with single
spaces, then edit-distance similarity on the joined strings. -/
def MetricWords.calculate (norm : Str → Str) (candidate : Str) (reference : Option Str) :
    Except MetricError ℚ :=
  match reference with
  | none => .error .MissingReferenceError
  | some reference =>
    let can_words := WordPreprocessor.tokenize norm candidate
    let ref_words := WordPreprocessor.tokenize norm reference
    .ok (levenshtein_similarity (joinSpace can_words) (joinSpace ref_words))

/-- Model of `MetricBoW::calculate_bow_similarity`: Jaccard similarity of the
unique-token sets. -/
def MetricBoW.calculate_bow_similarity (candidate reference : List Str) : ℚ :=
  if reference.isEmpty then (if candidate.isEmpty then 100 else 0)
  else
    let can_set := candidate.toFinset
    let ref_set := reference.toFinset
    let intersection := (can_set ∩ ref_set).card
    let union := (can_set ∪ ref_set).card
    if union = 0 then 100
    else ((intersection : ℚ) / (union : ℚ)) * 100

/-- Model of `MetricBoW::calculate`. -/
def MetricBoW.calculate (norm : Str → Str) (candidate : Str) (reference : Option Str) :
    Except MetricError ℚ :=
  match reference with
  | none => .error .MissingReferenceError
  | some reference =>
    .ok (MetricBoW.calculate_bow_similarity
      (WordPreprocessor.bag_of_words norm candidate)
      (WordPreprocessor.bag_of_words norm reference))

/-- Model of `MetricIRPre::calculate_precision`: true positives over the unique
filtered candidate tokens. -/
def MetricIRPre.calculate_precision (stopwords : List Str) (lower : Str → Str)
    (candidate reference : List Str) : ℚ :=
  if candidate.isEmpty then 0
  else
    let can_filtered := StopwordsFilter.filter_tokens stopwords lower candidate
    let ref_filtered := StopwordsFilter.filter_tokens stopwords lower reference
    let can_set := can_filtered.toFinset
    let ref_set := ref_filtered.toFinset
    let true_positives := (can_set ∩ ref_set).card
    if can_set = ∅ then 0
    else ((true_positives : ℚ) / (can_set.card : ℚ)) * 100

/-- Model of `MetricIRPre::calculate`: tokenize with the fixed NFC form (the
abstract parameter `nfc`), stopword-filter with the configured language,
then precision. -/
def MetricIRPre.calculate (language : String) (nfc lower : Str → Str) (candidate : Str)
    (reference : Option Str) : Except MetricError ℚ :=
  match reference with
  | none => .error .MissingReferenceError
  | some reference =>
    let can_tokens := WordPreprocessor.tokenize nfc candidate
    let ref_tokens := WordPreprocessor.tokenize nfc reference
    let stopwords := StopwordsFilter.load_stopwords language
    .ok (MetricIRPre.calculate_precision stopwords lower can_tokens ref_tokens)

/-- Model of `MetricIRRec::calculate_recall`: true positives over the unique
filtered reference tokens. -/
def MetricIRRec.calculate_recall (stopwords : List Str) (lower : Str → Str)
    (candidate reference : List Str) : ℚ :=
  if reference.isEmpty then 0
  else
    let can_filtered := StopwordsFilter.filter_tokens stopwords lower candidate
    let ref_filtered := StopwordsFilter.filter_tokens stopwords lower reference
    let can_set := can_filtered.toFinset
    let ref_set := ref_filtered.toFinset
    let true_positives := (can_set ∩ ref_set).card
    if ref_set = ∅ then 0
    else ((true_positives : ℚ) / (ref_set.card : ℚ)) * 100

/-- Model of `MetricIRRec::calculate`. -/
def MetricIRRec.calculate (language : String) (nfc lower : Str → Str) (candidate : Str)
    (reference : Option Str) : Except MetricError ℚ :=
  match reference with
  | none => .error .MissingReferenceError
  | some reference =>
    let can_tokens := WordPreprocessor.tokenize nfc candidate
    let ref_tokens := WordPreprocessor.tokenize nfc reference
    let stopwords := StopwordsFilter.load_stopwords language
    .ok (MetricIRRec.calculate_recall stopwords lower can_tokens ref_tokens)

/-- Model of `MetricIRFMeasure::calculate_f_measure`: harmonic mean, 0 when both
inputs are 0. -/
def MetricIRFMeasure.calculate_f_measure (precision recallVal : ℚ) : ℚ :=
  if precision + recallVal = 0 then 0
  else 2 * (precision * recallVal) / (precision + recallVal)

/-- Model of `MetricIRFMeasure::calculate`: precision and recall of the two nested
metrics, combined. -/
def MetricIRFMeasure.calculate (language : String) (nfc lower : Str → Str) (candidate : Str)
    (reference : Option Str) : Except MetricError ℚ :=
  match MetricIRPre.calculate language nfc lower candidate reference with
  | .error e => .error e
  | .ok precision =>
    match MetricIRRec.calculate language nfc lower candidate reference with
    | .error e => .error e
    | .ok recallVal => .ok (MetricIRFMeasure.calculate_f_measure precision recallVal)

/-- The closed set of metric implementations behind the `OCRMetric`
trait. -/
inductive MetricKind
  | Chars
  | Letters
  | Words
  | BoW
  | IRPre
  | IRRec
  | IRFMeasure
deriving DecidableEq

/-- The abstract Unicode operations a metric instance closes over. -/
structure MetricParams where
  norm : Str → Str
  nfc : Str → Str
  lower : Str → Str
  isAlphabetic : Char → Bool
  language : String

/-- Dynamic dispatch of `OCRMetric::calculate` over the seven
implementations. -/
def OCRMetric.calculate (k : MetricKind) (P : MetricParams) (candidate : Str)
    (reference : Option Str) : Except MetricError ℚ :=
  match k with
  | .Chars => MetricChars.calculate P.norm candidate reference
  | .Letters => MetricLetters.calculate P.isAlphabetic P.norm candidate reference
  | .Words => MetricWords.calculate P.norm candidate reference
  | .BoW => MetricBoW.calculate P.norm candidate reference
  | .IRPre => MetricIRPre.calculate P.language P.nfc P.lower candidate reference
  | .IRRec => MetricIRRec.calculate P.language P.nfc P.lower candidate reference
  | .IRFMeasure => MetricIRFMeasure.calculate P.language P.nfc P.lower candidate reference

/-- Model of `evaluation::EvaluationResult`.  The source stores the standard
deviation `std = sqrt(variance)`; `f64::sqrt` has no exact counterpart in
`ℚ`, so the model tracks `std_sq = std²` (the population variance).  The
recursive `cleared_result` substructure is not involved in any verified
claim and is left out of the embedding. -/
structure EvaluationResult where
  eval_key : String
  n_total : ℕ
  n_outlier : ℕ
  n_chars : ℕ
  n_lines : ℕ
  total_mean : ℚ
  mean : ℚ
  std_sq : ℚ
  median : ℚ

/-- Model of `EvaluationResult::new`. -/
def EvaluationResult.new (eval_key : String) (n_total : ℕ) : EvaluationResult :=
  { eval_key := eval_key, n_total := n_total, n_outlier := 0, n_chars := 0, n_lines := 0,
    total_mean := 0, mean := 0, std_sq := 0, median := 0 }

/-- Model of `sort_by(partial_cmp)` on an f64 vector: ascending sort. -/
def sortValues (values : List ℚ) : List ℚ := List.insertionSort (· ≤ ·) values

/-- Model of `EvaluationResult::calculate_statistics`: mean, population variance
(`std²`, divided by n) and median over a separately sorted copy; empty
input leaves the result untouched. -/
def EvaluationResult.calculate_statistics (r : EvaluationResult) (values : List ℚ) :
    EvaluationResult :=
  if values.isEmpty then r
  else
    let mean := values.sum / (values.length : ℚ)
    let variance := (values.map (fun v => (v - mean) ^ 2)).sum / (values.length : ℚ)
    let sorted := sortValues values
    let mid := sorted.length / 2
    let median :=
      if sorted.length % 2 = 0 then (sorted.getD (mid - 1) 0 + sorted.getD mid 0) / 2
      else sorted.getD mid 0
    { r with mean := mean, std_sq := variance, median := median }

/-- Model of `evaluation::detect_outliers`: IQR method with positional quartiles;
strictly-outside values are flagged by their original index. -/
def detect_outliers (values : List ℚ) : List ℕ :=
  if values.length < 4 then []
  else
    let sorted := sortValues values
    let q1_idx := sorted.length / 4
    let q3_idx := 3 * sorted.length / 4
    let q1 := sorted.getD q1_idx 0
    let q3 := sorted.getD q3_idx 0
    let iqr := q3 - q1
    let lower_bound := q1 - 1.5 * iqr
    let upper_bound := q3 + 1.5 * iqr
    values.enum.filterMap
      (fun iv => if iv.2 < lower_bound ∨ upper_bound < iv.2 then some iv.1 else none)

/-- A concrete choice of the abstract Unicode operations, used only to
instantiate universally quantified theorems on concrete inputs. -/
def sampleParams : MetricParams :=
  { norm := id, nfc := id, lower := id, isAlphabetic := Char.isAlpha, language := "deu" }

/-- A text line carrying only text, for concrete example documents. -/
def exLine (t : Str) : TextLine :=
  { id := none, text := t, bounding_box := none, words := [] }

/-- Concrete PAGE document: document order r1, r2, r3 with the explicit
reading order r3 ↦ 0, r1 ↦ 1, r2 ↦ 2. -/
def pageDocRO : PageDoc :=
  { readingOrderSrc := [("r3", 0), ("r1", 1), ("r2", 2)],
    regionsSrc :=
      [ { id := some "r1", bounding_box := none, lines := [exLine ['A']] },
        { id := some "r2", bounding_box := none, lines := [exLine ['B']] },
        { id := some "r3", bounding_box := none, lines := [exLine ['C']] } ] }

/-- A `TextRegion` without an `id` attribute. -/
def srcNoId : PageRegionSrc := { id := none, bounding_box := none, lines := [exLine ['A']] }

/-- A `TextRegion` with id `x`. -/
def srcIdX : PageRegionSrc := { id := some "x", bounding_box := none, lines := [exLine ['B']] }

/-- Concrete PAGE document whose first region has no id and whose second
region is identified. -/
def pageDocMixed : PageDoc := { readingOrderSrc := [], regionsSrc := [srcNoId, srcIdX] }

theorem strsim_levenshtein_nil_right (xs : Str) : strsim_levenshtein xs [] = xs.length := by
  cases xs <;> simp [strsim_levenshtein]

theorem strsim_levenshtein_self (s : Str) : strsim_levenshtein s s = 0 := by
  induction s with
  | nil => simp [strsim_levenshtein]
  | cons x xs ih => simp [strsim_levenshtein, ih]

theorem strsim_levenshtein_le_max (xs ys : Str) :
    strsim_levenshtein xs ys ≤ max xs.length ys.length := by
  induction xs generalizing ys with
  | nil => simp [strsim_levenshtein]
  | cons x xs ihx =>
    induction ys with
    | nil => simp [strsim_levenshtein]
    | cons y ys ihy =>
      by_cases h : x = y
      · have := ihx ys
        simp only [strsim_levenshtein, if_pos h, List.length_cons]
        omega
      · have h1 := ihx (y :: ys)
        have h2 := ihy
        have h3 := ihx ys
        simp only [strsim_levenshtein, if_neg h] at *
        simp only [List.length_cons] at *
        omega

theorem length_le_utf8Len (s : Str) : s.length ≤ utf8Len s := by
  induction s with
  | nil => simp [utf8Len]
  | cons c s ih =>
    have hc : 1 ≤ c.utf8Size := Char.utf8Size_pos c
    simp only [utf8Len, List.map_cons, List.sum_cons, List.length_cons] at *
    omega

theorem utf8Len_pos (s : Str) (h : s ≠ []) : 0 < utf8Len s := by
  cases s with
  | nil => exact absurd rfl h
  | cons c s =>
    have hc : 1 ≤ c.utf8Size := Char.utf8Size_pos c
    simp only [utf8Len, List.map_cons, List.sum_cons]
    omega

theorem rtrim_append_ws (s : Str) (c : Char) (h : isWS c = true) :
    rtrim (s ++ [c]) = rtrim s := by
  simp [rtrim, List.reverse_append, List.dropWhile, h]

theorem trim_append_ws (s : Str) (c : Char) (h : isWS c = true) :
    trimChars (s ++ [c]) = trimChars s := by
  simp [trimChars, rtrim_append_ws s c h]

theorem joinTrailNl_eq (ts : List Str) (h : ts ≠ []) :
    joinTrailNl ts = joinNl ts ++ ['\n'] := by
  induction ts with
  | nil => exact absurd rfl h
  | cons t ts ih =>
    cases ts with
    | nil => simp [joinTrailNl, joinNl]
    | cons u us =>
      have := ih (by simp)
      simp only [joinTrailNl, List.map_cons, List.flatten_cons] at *
      simp [joinNl, this]

theorem trim_joinTrailNl (ts : List Str) :
    trimChars (joinTrailNl ts) = trimChars (joinNl ts) := by
  cases h : ts with
  | nil => simp [joinTrailNl, joinNl]
  | cons t ts' =>
    rw [joinTrailNl_eq (t :: ts') (by simp)]
    exact trim_append_ws _ '\n' (by decide)

theorem filter_orderedInsert (n : ℕ) (x : String × ℕ) (l : List (String × ℕ)) :
    (List.orderedInsert keyLe x l).filter (fun p => p.2 == n) =
      if x.2 = n then x :: l.filter (fun p => p.2 == n)
      else l.filter (fun p => p.2 == n) := by
  induction l with
  | nil => by_cases h : x.2 = n <;> simp [List.orderedInsert, List.filter_cons, h]
  | cons b l ih =>
    by_cases hle : keyLe x b
    · by_cases h : x.2 = n <;>
        simp [List.orderedInsert, if_pos hle, List.filter_cons, h]
    · have hb : b.2 < x.2 := Nat.lt_of_not_le (fun hc => hle hc)
      by_cases h : x.2 = n
      · have hbn : (b.2 == n) = false := by
          simp only [beq_eq_false_iff_ne]
          omega
        simp [List.orderedInsert, if_neg hle, List.filter_cons, hbn, ih, h]
      · simp only [List.orderedInsert, if_neg hle, List.filter_cons, ih, if_neg h]

theorem filter_insertionSort (n : ℕ) (l : List (String × ℕ)) :
    (List.insertionSort keyLe l).filter (fun p => p.2 == n) =
      l.filter (fun p => p.2 == n) := by
  induction l with
  | nil => rfl
  | cons x l ih =>
    simp only [List.insertionSort, filter_orderedInsert, ih, List.filter_cons]
    by_cases h : x.2 = n <;> simp [h]

theorem joinTrailNl_cons (t : Str) (ts : List Str) :
    joinTrailNl (t :: ts) = t ++ '\n' :: joinTrailNl ts := by
  simp [joinTrailNl]

theorem parse_text_region_id (src : PageRegionSrc) :
    (parse_text_region src).id = src.id := rfl

theorem collectStep_some (acc : List (String × Region) × List String × List Region)
    (src : PageRegionSrc) (rid : String) (h : src.id = some rid) :
    collectStep acc src = (rmInsert acc.1 rid (parse_text_region src), acc.2.1 ++ [rid], acc.2.2) := by
  simp [collectStep, parse_text_region_id, h]

theorem collectStep_none (acc : List (String × Region) × List String × List Region)
    (src : PageRegionSrc) (h : src.id = none) :
    collectStep acc src = (acc.1, acc.2.1, acc.2.2 ++ [parse_text_region src]) := by
  simp [collectStep, parse_text_region_id, h]

theorem collect_regs (srcs : List PageRegionSrc)
    (init : List (String × Region) × List String × List Region) :
    (srcs.foldl collectStep init).2.2 =
      init.2.2 ++ (srcs.filter (fun s => s.id.isNone)).map parse_text_region := by
  induction srcs generalizing init with
  | nil => simp
  | cons s srcs ih =>
    cases h : s.id with
    | some rid =>
      rw [List.foldl_cons, collectStep_some _ _ _ h, ih]
      simp [List.filter_cons, h]
    | none =>
      rw [List.foldl_cons, collectStep_none _ _ h, ih]
      simp [List.filter_cons, h]

theorem rmInsert_all (Q : Region → Prop) (m : List (String × Region)) (k : String)
    (v : Region) (hm : ∀ p ∈ m, Q p.2) (hv : Q v) : ∀ p ∈ rmInsert m k v, Q p.2 := by
  intro p hp
  unfold rmInsert at hp
  by_cases hc : m.any (fun p => p.1 == k)
  · rw [if_pos hc] at hp
    obtain ⟨q, hq, hqe⟩ := List.mem_map.mp hp
    by_cases hk : q.1 == k
    · rw [if_pos hk] at hqe
      rw [← hqe]
      exact hv
    · rw [if_neg hk] at hqe
      rw [← hqe]
      exact hm q hq
  · rw [if_neg hc] at hp
    rcases List.mem_append.mp hp with h | h
    · exact hm p h
    · rw [List.mem_singleton.mp h]
      exact hv

theorem collect_map_all (Q : Region → Prop)
    (hQ : ∀ src : PageRegionSrc, src.id.isSome → Q (parse_text_region src))
    (srcs : List PageRegionSrc) :
    ∀ init : List (String × Region) × List String × List Region,
      (∀ p ∈ init.1, Q p.2) → ∀ p ∈ (srcs.foldl collectStep init).1, Q p.2 := by
  induction srcs with
  | nil => intro init h; simpa using h
  | cons s srcs ih =>
    intro init hinit
    cases h : s.id with
    | some rid =>
      rw [List.foldl_cons, collectStep_some _ _ _ h]
      exact ih _ (rmInsert_all Q _ _ _ hinit (hQ s (by simp [h])))
    | none =>
      rw [List.foldl_cons, collectStep_none _ _ h]
      exact ih _ hinit

theorem rmRemove_some_mem (m : List (String × Region)) (k : String) (r : Region)
    (m2 : List (String × Region)) (h : rmRemove m k = (some r, m2)) : (k, r) ∈ m := by
  induction m generalizing m2 with
  | nil => simp [rmRemove] at h
  | cons p rest ih =>
    by_cases hk : p.1 = k
    · simp only [rmRemove, if_pos hk, Prod.mk.injEq, Option.some.injEq] at h
      have hp : p = (k, r) := by
        cases p with
        | mk a b =>
          simp only [Prod.mk.injEq]
          exact ⟨hk, h.1⟩
      rw [hp]
      exact List.mem_cons_self _ _
    · simp only [rmRemove, if_neg hk, Prod.mk.injEq] at h
      refine List.mem_cons_of_mem _ (ih (rmRemove rest k).2 ?_)
      rw [← h.1]

theorem rmRemove_subset (m : List (String × Region)) (k : String) :
    ∀ p ∈ (rmRemove m k).2, p ∈ m := by
  induction m with
  | nil => simp [rmRemove]
  | cons q rest ih =>
    intro p hp
    by_cases hk : q.1 = k
    · simp only [rmRemove, if_pos hk] at hp
      exact List.mem_cons_of_mem _ hp
    · simp only [rmRemove, if_neg hk] at hp
      rcases List.mem_cons.mp hp with h | h
      · rw [h]; exact List.mem_cons_self _ _
      · exact List.mem_cons_of_mem _ (ih p h)

theorem emitStep_eq_some (st : List (String × Region) × Str × List Region) (rid : String)
    (region : Region) (m2 : List (String × Region)) (h : rmRemove st.1 rid = (some region, m2)) :
    emitStep st rid = (m2, st.2.1 ++ region.text ++ ['\n'], st.2.2 ++ [region]) := by
  simp [emitStep, h]

theorem emitStep_eq_none (st : List (String × Region) × Str × List Region) (rid : String)
    (m2 : List (String × Region)) (h : rmRemove st.1 rid = (none, m2)) :
    emitStep st rid = (m2, st.2.1, st.2.2) := by
  simp [emitStep, h]

theorem emitFold_spec (Q : Region → Prop) (ids : List String) :
    ∀ (m : List (String × Region)) (txt : Str) (regs : List Region),
      (∀ p ∈ m, Q p.2) →
      ∃ added : List Region,
        (ids.foldl emitStep (m, txt, regs)).2.1 = txt ++ joinTrailNl (added.map (fun r => r.text)) ∧
        (ids.foldl emitStep (m, txt, regs)).2.2 = regs ++ added ∧
        ∀ r ∈ added, Q r := by
  induction ids with
  | nil =>
    intro m txt regs _
    exact ⟨[], by simp [joinTrailNl], by simp, by simp⟩
  | cons rid ids ih =>
    intro m txt regs hm
    cases he : rmRemove m rid with
    | mk o m2 =>
      have hm2 : ∀ p ∈ m2, Q p.2 := fun p hp =>
        hm p (rmRemove_subset m rid p (by rw [he] at *; exact hp))
      cases o with
      | none =>
        rw [List.foldl_cons, emitStep_eq_none (m, txt, regs) rid m2 he]
        exact ih m2 txt regs hm2
      | some region =>
        rw [List.foldl_cons, emitStep_eq_some (m, txt, regs) rid region m2 he]
        obtain ⟨added, h1, h2, h3⟩ := ih m2 (txt ++ region.text ++ ['\n']) (regs ++ [region]) hm2
        refine ⟨region :: added, ?_, ?_, ?_⟩
        · rw [h1, List.map_cons, joinTrailNl_cons]
          simp
        · rw [h2]
          simp
        · intro r hr
          rcases List.mem_cons.mp hr with h | h
          · rw [h]
            exact hm (rid, region) (rmRemove_some_mem m rid region m2 he)
          · exact h3 r h

theorem parse_page_document_spec (Q : Region → Prop)
    (hQ : ∀ src : PageRegionSrc, src.id.isSome → Q (parse_text_region src)) (d : PageDoc) :
    ∃ added : List Region,
      (parse_page_document d).1 = trimChars (joinTrailNl (added.map (fun r => r.text))) ∧
      (parse_page_document d).2 =
        (d.regionsSrc.filter (fun s => s.id.isNone)).map parse_text_region ++ added ∧
      ∀ r ∈ added, Q r := by
  unfold parse_page_document
  set collected := d.regionsSrc.foldl collectStep (([], [], []) :
    List (String × Region) × List String × List Region) with hcol
  set ordered_ids := if extract_reading_order d ≠ [] then
    apply_reading_order (extract_reading_order d) collected.2.1 else collected.2.1 with hids
  have hmQ : ∀ p ∈ collected.1, Q p.2 := by
    rw [hcol]
    exact collect_map_all Q hQ d.regionsSrc ([], [], []) (by simp)
  obtain ⟨added, h1, h2, h3⟩ := emitFold_spec Q ordered_ids collected.1 [] collected.2.2 hmQ
  refine ⟨added, ?_, ?_, h3⟩
  · simp only [h1, List.nil_append]
  · rw [h2, hcol, collect_regs]
    simp

theorem levenshtein_similarity_self (s : Str) : levenshtein_similarity s s = 100 := by
  unfold levenshtein_similarity
  by_cases h : s.isEmpty
  · rw [if_pos h, if_pos h]
  · rw [if_neg h]
    simp only [strsim_levenshtein_self, max_self, Nat.cast_zero, zero_div, sub_zero, one_mul]
    split <;> norm_num

theorem levenshtein_similarity_bounds (a b : Str) :
    0 ≤ levenshtein_similarity a b ∧ levenshtein_similarity a b ≤ 100 := by
  unfold levenshtein_similarity
  by_cases hb : b.isEmpty
  · rw [if_pos hb]
    split <;> norm_num
  · rw [if_neg hb]
    by_cases hm0 : max (utf8Len b) (utf8Len a) = 0
    · rw [if_pos hm0]
      norm_num
    · rw [if_neg hm0]
      have hdm : strsim_levenshtein a b ≤ max (utf8Len b) (utf8Len a) := by
        calc strsim_levenshtein a b ≤ max a.length b.length := strsim_levenshtein_le_max a b
          _ ≤ max (utf8Len a) (utf8Len b) :=
              max_le_max (length_le_utf8Len a) (length_le_utf8Len b)
          _ = max (utf8Len b) (utf8Len a) := Nat.max_comm _ _
      have hmq : (0:ℚ) < (max (utf8Len b) (utf8Len a) : ℕ) :=
        Nat.cast_pos.mpr (Nat.pos_of_ne_zero hm0)
      have hdq : ((strsim_levenshtein a b : ℕ) : ℚ) ≤ ((max (utf8Len b) (utf8Len a) : ℕ) : ℚ) :=
        Nat.cast_le.mpr hdm
      have h1 : ((strsim_levenshtein a b : ℕ) : ℚ) / ((max (utf8Len b) (utf8Len a) : ℕ) : ℚ) ≤ 1 :=
        (div_le_one hmq).mpr hdq
      have h2 : (0:ℚ) ≤ ((strsim_levenshtein a b : ℕ) : ℚ) / ((max (utf8Len b) (utf8Len a) : ℕ) : ℚ) :=
        div_nonneg (Nat.cast_nonneg _) (le_of_lt hmq)
      constructor <;> nlinarith

theorem ratio100_bounds (a b : ℕ) (hab : a ≤ b) (hb : b ≠ 0) :
    0 ≤ ((a:ℚ)/(b:ℚ)) * 100 ∧ ((a:ℚ)/(b:ℚ)) * 100 ≤ 100 := by
  have hbq : (0:ℚ) < b := Nat.cast_pos.mpr (Nat.pos_of_ne_zero hb)
  have h1 : (a:ℚ)/(b:ℚ) ≤ 1 := (div_le_one hbq).mpr (Nat.cast_le.mpr hab)
  have h2 : (0:ℚ) ≤ (a:ℚ)/(b:ℚ) := div_nonneg (Nat.cast_nonneg a) (le_of_lt hbq)
  constructor <;> nlinarith

theorem bow_similarity_bounds (c r : List Str) :
    0 ≤ MetricBoW.calculate_bow_similarity c r ∧ MetricBoW.calculate_bow_similarity c r ≤ 100 := by
  unfold MetricBoW.calculate_bow_similarity
  by_cases hr : r.isEmpty
  · rw [if_pos hr]
    split <;> norm_num
  · rw [if_neg hr]
    by_cases hu : (c.toFinset ∪ r.toFinset).card = 0
    · rw [if_pos hu]
      norm_num
    · rw [if_neg hu]
      exact ratio100_bounds _ _
        (Finset.card_le_card (Finset.Subset.trans Finset.inter_subset_left
          Finset.subset_union_left)) hu

theorem precision_bounds (stopwords : List Str) (lower : Str → Str) (c r : List Str) :
    0 ≤ MetricIRPre.calculate_precision stopwords lower c r ∧
      MetricIRPre.calculate_precision stopwords lower c r ≤ 100 := by
  unfold MetricIRPre.calculate_precision
  by_cases hc : c.isEmpty
  · rw [if_pos hc]
    norm_num
  · rw [if_neg hc]
    by_cases hs : (StopwordsFilter.filter_tokens stopwords lower c).toFinset = ∅
    · rw [if_pos hs]
      norm_num
    · rw [if_neg hs]
      exact ratio100_bounds _ _ (Finset.card_le_card Finset.inter_subset_left)
        (fun h0 => hs (Finset.card_eq_zero.mp h0))

theorem recall_bounds (stopwords : List Str) (lower : Str → Str) (c r : List Str) :
    0 ≤ MetricIRRec.calculate_recall stopwords lower c r ∧
      MetricIRRec.calculate_recall stopwords lower c r ≤ 100 := by
  unfold MetricIRRec.calculate_recall
  by_cases hr : r.isEmpty
  · rw [if_pos hr]
    norm_num
  · rw [if_neg hr]
    by_cases hs : (StopwordsFilter.filter_tokens stopwords lower r).toFinset = ∅
    · rw [if_pos hs]
      norm_num
    · rw [if_neg hs]
      exact ratio100_bounds _ _ (Finset.card_le_card Finset.inter_subset_right)
        (fun h0 => hs (Finset.card_eq_zero.mp h0))

theorem f_measure_bounds (p r : ℚ) (hp0 : 0 ≤ p) (hp1 : p ≤ 100) (hr0 : 0 ≤ r) (hr1 : r ≤ 100) :
    0 ≤ MetricIRFMeasure.calculate_f_measure p r ∧
      MetricIRFMeasure.calculate_f_measure p r ≤ 100 := by
  unfold MetricIRFMeasure.calculate_f_measure
  by_cases h : p + r = 0
  · rw [if_pos h]
    norm_num
  · rw [if_neg h]
    have hpr : 0 < p + r := lt_of_le_of_ne (by linarith) (Ne.symm h)
    constructor
    · exact div_nonneg (by nlinarith) (le_of_lt hpr)
    · rw [div_le_iff₀ hpr]
      nlinarith

theorem metric_bow_self (b : List Str) : MetricBoW.calculate_bow_similarity b b = 100 := by
  unfold MetricBoW.calculate_bow_similarity
  by_cases h : b.isEmpty
  · rw [if_pos h, if_pos h]
  · rw [if_neg h]
    simp only [Finset.inter_self, Finset.union_self]
    have hc : b.toFinset.card ≠ 0 := by
      rw [Ne, Finset.card_eq_zero, List.toFinset_eq_empty_iff]
      exact fun hb => h (by simp [hb])
    rw [if_neg hc, div_self (Nat.cast_ne_zero.mpr hc)]
    norm_num

theorem precision_self (stopwords : List Str) (lower : Str → Str) (toks : List Str) :
    MetricIRPre.calculate_precision stopwords lower toks toks =
      (if toks = [] ∨ StopwordsFilter.filter_tokens stopwords lower toks = [] then 0
       else 100) := by
  unfold MetricIRPre.calculate_precision
  by_cases h : toks.isEmpty
  · rw [if_pos h, if_pos (Or.inl (List.isEmpty_iff.mp h))]
  · rw [if_neg h]
    simp only [Finset.inter_self]
    by_cases hf : (StopwordsFilter.filter_tokens stopwords lower toks).toFinset = ∅
    · rw [if_pos hf,
        if_pos (Or.inr ((List.toFinset_eq_empty_iff _).mp hf))]
    · rw [if_neg hf]
      have h1 : ¬ toks = [] := fun hh => h (by simp [hh])
      have h2 : ¬ StopwordsFilter.filter_tokens stopwords lower toks = [] :=
        fun hh => hf (by simp [hh])
      rw [if_neg (by push_neg; exact ⟨h1, h2⟩)]
      have hc : (StopwordsFilter.filter_tokens stopwords lower toks).toFinset.card ≠ 0 :=
        fun h0 => hf (Finset.card_eq_zero.mp h0)
      rw [div_self (Nat.cast_ne_zero.mpr hc)]
      norm_num

theorem recall_self (stopwords : List Str) (lower : Str → Str) (toks : List Str) :
    MetricIRRec.calculate_recall stopwords lower toks toks =
      (if toks = [] ∨ StopwordsFilter.filter_tokens stopwords lower toks = [] then 0
       else 100) := by
  unfold MetricIRRec.calculate_recall
  by_cases h : toks.isEmpty
  · rw [if_pos h, if_pos (Or.inl (List.isEmpty_iff.mp h))]
  · rw [if_neg h]
    simp only [Finset.inter_self]
    by_cases hf : (StopwordsFilter.filter_tokens stopwords lower toks).toFinset = ∅
    · rw [if_pos hf,
        if_pos (Or.inr ((List.toFinset_eq_empty_iff _).mp hf))]
    · rw [if_neg hf]
      have h1 : ¬ toks = [] := fun hh => h (by simp [hh])
      have h2 : ¬ StopwordsFilter.filter_tokens stopwords lower toks = [] :=
        fun hh => hf (by simp [hh])
      rw [if_neg (by push_neg; exact ⟨h1, h2⟩)]
      have hc : (StopwordsFilter.filter_tokens stopwords lower toks).toFinset.card ≠ 0 :=
        fun h0 => hf (Finset.card_eq_zero.mp h0)
      rw [div_self (Nat.cast_ne_zero.mpr hc)]
      norm_num

/-- C1.  PAGE reading-order resolution (`apply_reading_order`): for every
reading-order map and document-order id list, the result is the indexed
ids sorted ascending by declared index — a permutation of the indexed
group that is sorted on the key and stable (ids sharing an index keep
their document order) — followed by the ids without an index in document
order; in particular document order [r1, r2, r3] with explicit order
{r3 ↦ 0, r1 ↦ 1, r2 ↦ 2} resolves to [r3, r1, r2], both at the
id-resolution level and for the parsed document. -/
theorem c1_reading_order :
    (∀ (reading_order : List (String × ℕ)) (dom_order : List String),
      apply_reading_order reading_order dom_order =
        (List.insertionSort keyLe
          (dom_order.filterMap
            (fun rid => (roLookup reading_order rid).map (fun idx => (rid, idx))))).map Prod.fst ++
        dom_order.filter (fun rid => (roLookup reading_order rid).isNone) ∧
      List.Sorted keyLe
        (List.insertionSort keyLe
          (dom_order.filterMap
            (fun rid => (roLookup reading_order rid).map (fun idx => (rid, idx))))) ∧
      (List.insertionSort keyLe
        (dom_order.filterMap
          (fun rid => (roLookup reading_order rid).map (fun idx => (rid, idx))))).Perm
        (dom_order.filterMap
          (fun rid => (roLookup reading_order rid).map (fun idx => (rid, idx)))) ∧
      ∀ n : ℕ,
        (List.insertionSort keyLe
          (dom_order.filterMap
            (fun rid => (roLookup reading_order rid).map (fun idx => (rid, idx))))).filter
            (fun p => p.2 == n) =
          (dom_order.filterMap
            (fun rid => (roLookup reading_order rid).map (fun idx => (rid, idx)))).filter
            (fun p => p.2 == n)) ∧
    apply_reading_order [("r3", 0), ("r1", 1), ("r2", 2)] ["r1", "r2", "r3"] =
      ["r3", "r1", "r2"] ∧
    (parse_page_document pageDocRO).2.map (fun r => r.id) =
      [some "r3", some "r1", some "r2"] := by
  refine ⟨fun reading_order dom_order =>
    ⟨rfl, List.sorted_insertionSort keyLe _, List.perm_insertionSort keyLe _,
     fun n => filter_insertionSort n _⟩, by decide, by decide⟩

/-- C2 (amended).  In `parse_page_document`, regions without an identifier
are placed at the beginning of the final region sequence — in document
order, never reordered, never dropped — and everything after them is an
identified region. -/
theorem c2_unidentified_regions_amended : ∀ d : PageDoc,
    ∃ identified : List Region,
      (parse_page_document d).2 =
        (d.regionsSrc.filter (fun s => s.id.isNone)).map parse_text_region ++ identified ∧
      ∀ r ∈ identified, r.id.isSome := by
  intro d
  obtain ⟨added, _, h2, h3⟩ := parse_page_document_spec (fun r => r.id.isSome = true)
    (fun src h => h) d
  exact ⟨added, h2, h3⟩

/-- C2 (counterexample).  The claim — regions without an identifier come
after all identified regions — fails on the concrete document whose first
region has no id and whose second has id `x`: no prefix of identified
regions can be followed by the no-id regions, because the parser emits the
no-id region first. -/
theorem c2_unidentified_regions_counterexample :
    ¬ ∃ pre : List Region,
        (parse_page_document pageDocMixed).2 =
          pre ++ (pageDocMixed.regionsSrc.filter (fun s => s.id.isNone)).map parse_text_region ∧
        ∀ r ∈ pre, r.id.isSome := by
  rintro ⟨pre, heq, _⟩
  have hmap : (parse_page_document pageDocMixed).2.map (fun r => r.id) = [none, some "x"] := by
    decide
  have hfil : ((pageDocMixed.regionsSrc.filter (fun s => s.id.isNone)).map
      parse_text_region).map (fun r => r.id) = [none] := by decide
  rw [heq, List.map_append, hfil] at hmap
  have hlast := congrArg List.getLast? hmap
  rw [List.getLast?_concat] at hlast
  simp at hlast

/-- C3 (amended).  Round-trip: for every ALTO document, and for every PAGE
document all of whose regions carry an identifier, the reported full text
is the region texts joined by newlines and trimmed, and each region text
is its line texts joined by newlines and trimmed.  (A PAGE region without
an identifier stays in the region sequence but its text is left out of the
full text, so the PAGE half needs the identifier hypothesis.) -/
theorem c3_roundtrip_amended :
    (∀ blocks : List AltoBlockSrc,
      (parse_alto_document blocks).1 =
        trimChars (joinNl ((parse_alto_document blocks).2.map (fun r => r.text))) ∧
      ∀ r ∈ (parse_alto_document blocks).2,
        r.text = trimChars (joinNl (r.lines.map (fun l => l.text)))) ∧
    (∀ d : PageDoc, (∀ s ∈ d.regionsSrc, s.id.isSome) →
      (parse_page_document d).1 =
        trimChars (joinNl ((parse_page_document d).2.map (fun r => r.text))) ∧
      ∀ r ∈ (parse_page_document d).2,
        r.text = trimChars (joinNl (r.lines.map (fun l => l.text)))) := by
  constructor
  · intro blocks
    constructor
    · exact trim_joinTrailNl _
    · intro r hr
      simp only [parse_alto_document] at hr
      obtain ⟨b, _, rfl⟩ := List.mem_map.mp hr
      exact trim_joinTrailNl _
  · intro d hall
    have hfil : d.regionsSrc.filter (fun s => s.id.isNone) = [] := by
      rw [List.filter_eq_nil_iff]
      intro s hs
      have := hall s hs
      cases h : s.id with
      | none => rw [h] at this; simp at this
      | some v => simp [h]
    obtain ⟨added, h1, h2, h3⟩ := parse_page_document_spec
      (fun r => r.text = trimChars (joinTrailNl (r.lines.map (fun l => l.text))))
      (fun src _ => rfl) d
    rw [hfil] at h2
    simp only [List.map_nil, List.nil_append] at h2
    constructor
    · rw [h1, h2]
      exact trim_joinTrailNl _
    · intro r hr
      rw [h2] at hr
      rw [h3 r hr]
      exact trim_joinTrailNl _

/-- C3 (witness for the amended theorem).  The PAGE half applied to the
concrete all-identified document with explicit reading order. -/
theorem c3_roundtrip_amended_witness :
    (parse_page_document pageDocRO).1 =
      trimChars (joinNl ((parse_page_document pageDocRO).2.map (fun r => r.text))) :=
  (c3_roundtrip_amended.2 pageDocRO (by decide)).1

/-- C3 (counterexample).  On the concrete PAGE document whose first region
has no identifier, the full text is not the newline join of all parsed
region texts: the no-id region's text is missing from the full text. -/
theorem c3_roundtrip_counterexample :
    (parse_page_document pageDocMixed).1 ≠
      trimChars (joinNl ((parse_page_document pageDocMixed).2.map (fun r => r.text))) := by
  decide

/-- C4 (counterexample).  IR-Precision on the non-empty text consisting of
one space, used as both candidate and reference, returns 0 rather than
100: its whitespace-only input tokenizes to the empty token list.  (NFC
normalization leaves the one-space text unchanged, so `id` instantiates
the abstract normalization faithfully on this input.) -/
theorem c4_identity_counterexample :
    MetricIRPre.calculate "deu" id id [' '] (some [' ']) = .ok 0 ∧
    MetricIRPre.calculate "deu" id id [' '] (some [' ']) ≠ .ok 100 := by
  have h : MetricIRPre.calculate "deu" id id [' '] (some [' ']) = .ok 0 := by rfl
  refine ⟨h, ?_⟩
  rw [h]
  intro hc
  have h100 := Except.ok.inj hc
  norm_num at h100

/-- C4 (amended).  For every non-empty text T and every choice of the
abstract Unicode operations, the Characters, Letters, Words and BagOfWords
metrics return exactly 100 on (T, T); the IR metrics return 100 on (T, T)
exactly when T's NFC token list and its stopword-filtered form are both
non-empty, and 0 otherwise. -/
theorem c4_identity_amended : ∀ (P : MetricParams) (T : Str), T ≠ [] →
    OCRMetric.calculate .Chars P T (some T) = .ok 100 ∧
    OCRMetric.calculate .Letters P T (some T) = .ok 100 ∧
    OCRMetric.calculate .Words P T (some T) = .ok 100 ∧
    OCRMetric.calculate .BoW P T (some T) = .ok 100 ∧
    OCRMetric.calculate .IRPre P T (some T) =
      .ok (if WordPreprocessor.tokenize P.nfc T = [] ∨
            StopwordsFilter.filter_tokens (StopwordsFilter.load_stopwords P.language) P.lower
              (WordPreprocessor.tokenize P.nfc T) = [] then 0 else 100) ∧
    OCRMetric.calculate .IRRec P T (some T) =
      .ok (if WordPreprocessor.tokenize P.nfc T = [] ∨
            StopwordsFilter.filter_tokens (StopwordsFilter.load_stopwords P.language) P.lower
              (WordPreprocessor.tokenize P.nfc T) = [] then 0 else 100) ∧
    OCRMetric.calculate .IRFMeasure P T (some T) =
      .ok (if WordPreprocessor.tokenize P.nfc T = [] ∨
            StopwordsFilter.filter_tokens (StopwordsFilter.load_stopwords P.language) P.lower
              (WordPreprocessor.tokenize P.nfc T) = [] then 0 else 100) := by
  intro P T _
  refine ⟨?_, ?_, ?_, ?_, ?_, ?_, ?_⟩
  · simp only [OCRMetric.calculate, MetricChars.calculate, levenshtein_similarity_self]
  · simp only [OCRMetric.calculate, MetricLetters.calculate, levenshtein_similarity_self]
  · simp only [OCRMetric.calculate, MetricWords.calculate, levenshtein_similarity_self]
  · simp only [OCRMetric.calculate, MetricBoW.calculate, metric_bow_self]
  · simp only [OCRMetric.calculate, MetricIRPre.calculate, precision_self]
  · simp only [OCRMetric.calculate, MetricIRRec.calculate, recall_self]
  · simp only [OCRMetric.calculate, MetricIRFMeasure.calculate, MetricIRPre.calculate,
      MetricIRRec.calculate, precision_self, recall_self]
    by_cases hc : WordPreprocessor.tokenize P.nfc T = [] ∨
        StopwordsFilter.filter_tokens (StopwordsFilter.load_stopwords P.language) P.lower
          (WordPreprocessor.tokenize P.nfc T) = []
    · rw [if_pos hc]
      norm_num [MetricIRFMeasure.calculate_f_measure]
    · rw [if_neg hc]
      norm_num [MetricIRFMeasure.calculate_f_measure]

/-- C4 (witness for the amended theorem).  The Characters conjunct at the
concrete non-empty text "ab" under concrete Unicode operations. -/
theorem c4_identity_amended_witness :
    OCRMetric.calculate .Chars sampleParams ['a', 'b'] (some ['a', 'b']) = .ok 100 :=
  (c4_identity_amended sampleParams ['a', 'b'] (by decide)).1

/-- C5.  `MetricChars::calculate` with a reference present: normalize both
texts, then the score is 100 · (1 − levenshtein / max(len(candidate),
len(reference))) where `len` is Rust's `str::len`, the UTF-8 byte length;
an empty (normalized) reference yields 100 when the candidate is also
empty and 0 otherwise. -/
theorem c5_metric_chars_formula : ∀ (norm : Str → Str) (candidate reference : Str),
    MetricChars.calculate norm candidate (some reference) =
      .ok (if norm reference = [] then (if norm candidate = [] then 100 else 0)
           else 100 * (1 - (strsim_levenshtein (norm candidate) (norm reference) : ℚ) /
             ((max (utf8Len (norm candidate)) (utf8Len (norm reference)) : ℕ) : ℚ))) := by
  intro norm candidate reference
  simp only [MetricChars.calculate, Except.ok.injEq]
  unfold levenshtein_similarity
  by_cases h : (norm reference).isEmpty
  · rw [if_pos h, if_pos (List.isEmpty_iff.mp h)]
    by_cases hc : (norm candidate).isEmpty
    · rw [if_pos hc, if_pos (List.isEmpty_iff.mp hc)]
    · rw [if_neg hc, if_neg (fun hh => hc (by simp [hh]))]
  · have hne : norm reference ≠ [] := fun hh => h (by simp [hh])
    rw [if_neg h, if_neg hne]
    have hp := utf8Len_pos _ hne
    have hm : max (utf8Len (norm reference)) (utf8Len (norm candidate)) ≠ 0 := by omega
    rw [if_neg hm, Nat.max_comm (utf8Len (norm reference)) (utf8Len (norm candidate))]
    ring

/-- C9.  Every one of the seven metrics fails with the missing-reference
error when called without a reference, and whenever a reference is
supplied the returned score lies in [0, 100]. -/
theorem c9_metric_contract : ∀ (k : MetricKind) (P : MetricParams) (candidate : Str),
    OCRMetric.calculate k P candidate none = .error .MissingReferenceError ∧
    ∀ (reference : Str) (score : ℚ),
      OCRMetric.calculate k P candidate (some reference) = .ok score →
      0 ≤ score ∧ score ≤ 100 := by
  intro k P candidate
  cases k with
  | Chars =>
    refine ⟨rfl, fun reference score h => ?_⟩
    simp only [OCRMetric.calculate, MetricChars.calculate, Except.ok.injEq] at h
    rw [← h]
    exact levenshtein_similarity_bounds _ _
  | Letters =>
    refine ⟨rfl, fun reference score h => ?_⟩
    simp only [OCRMetric.calculate, MetricLetters.calculate, Except.ok.injEq] at h
    rw [← h]
    exact levenshtein_similarity_bounds _ _
  | Words =>
    refine ⟨rfl, fun reference score h => ?_⟩
    simp only [OCRMetric.calculate, MetricWords.calculate, Except.ok.injEq] at h
    rw [← h]
    exact levenshtein_similarity_bounds _ _
  | BoW =>
    refine ⟨rfl, fun reference score h => ?_⟩
    simp only [OCRMetric.calculate, MetricBoW.calculate, Except.ok.injEq] at h
    rw [← h]
    exact bow_similarity_bounds _ _
  | IRPre =>
    refine ⟨rfl, fun reference score h => ?_⟩
    simp only [OCRMetric.calculate, MetricIRPre.calculate, Except.ok.injEq] at h
    rw [← h]
    exact precision_bounds _ _ _ _
  | IRRec =>
    refine ⟨rfl, fun reference score h => ?_⟩
    simp only [OCRMetric.calculate, MetricIRRec.calculate, Except.ok.injEq] at h
    rw [← h]
    exact recall_bounds _ _ _ _
  | IRFMeasure =>
    refine ⟨rfl, fun reference score h => ?_⟩
    simp only [OCRMetric.calculate, MetricIRFMeasure.calculate, MetricIRPre.calculate,
      MetricIRRec.calculate, Except.ok.injEq] at h
    rw [← h]
    obtain ⟨hp0, hp1⟩ := precision_bounds (StopwordsFilter.load_stopwords P.language) P.lower
      (WordPreprocessor.tokenize P.nfc candidate) (WordPreprocessor.tokenize P.nfc reference)
    obtain ⟨hr0, hr1⟩ := recall_bounds (StopwordsFilter.load_stopwords P.language) P.lower
      (WordPreprocessor.tokenize P.nfc candidate) (WordPreprocessor.tokenize P.nfc reference)
    exact f_measure_bounds _ _ hp0 hp1 hr0 hr1

/-- C9 (witness).  The bound part applied to the Characters metric on the
concrete identical pair ("a", "a") with score 100. -/
theorem c9_metric_contract_witness : (0:ℚ) ≤ 100 ∧ (100:ℚ) ≤ 100 :=
  (c9_metric_contract .Chars sampleParams ['a']).2 ['a'] 100 (by
    simp only [OCRMetric.calculate, MetricChars.calculate, sampleParams, id_eq,
      levenshtein_similarity_self])

/-- C6.  `detect_outliers`: fewer than 4 values yields no outliers; for at
least 4 values an index is flagged exactly when its value lies strictly
outside [q1 − 1.5·iqr, q3 + 1.5·iqr], with q1/q3 the sorted values at
positions ⌊n/4⌋ and ⌊3n/4⌋ (the sort really sorts: it is an ascending
permutation of the input); and detect_outliers([1,2,3,4,5,100]) flags
exactly index 5. -/
theorem c6_detect_outliers :
    (∀ values : List ℚ, values.length < 4 → detect_outliers values = []) ∧
    (∀ values : List ℚ,
      List.Sorted (· ≤ ·) (sortValues values) ∧ (sortValues values).Perm values) ∧
    (∀ values : List ℚ, 4 ≤ values.length → ∀ i : ℕ,
      (i ∈ detect_outliers values ↔
        ∃ v, values[i]? = some v ∧
          (v < (sortValues values).getD (values.length / 4) 0 -
              1.5 * ((sortValues values).getD (3 * values.length / 4) 0 -
                (sortValues values).getD (values.length / 4) 0) ∨
           (sortValues values).getD (3 * values.length / 4) 0 +
              1.5 * ((sortValues values).getD (3 * values.length / 4) 0 -
                (sortValues values).getD (values.length / 4) 0) < v))) ∧
    detect_outliers [1, 2, 3, 4, 5, 100] = [5] := by
  refine ⟨?_, ?_, ?_, ?_⟩
  · intro values h
    unfold detect_outliers
    rw [if_pos h]
  · intro values
    exact ⟨List.sorted_insertionSort _ _, List.perm_insertionSort _ _⟩
  · intro values h4 i
    have hlen : (sortValues values).length = values.length :=
      (List.perm_insertionSort _ _).length_eq
    simp only [detect_outliers, hlen]
    rw [if_neg (by omega)]
    constructor
    · intro hmem
      obtain ⟨⟨j, v⟩, hjv, hf⟩ := List.mem_filterMap.mp hmem
      by_cases hp : v < (sortValues values).getD (values.length / 4) 0 -
          1.5 * ((sortValues values).getD (3 * values.length / 4) 0 -
            (sortValues values).getD (values.length / 4) 0) ∨
          (sortValues values).getD (3 * values.length / 4) 0 +
            1.5 * ((sortValues values).getD (3 * values.length / 4) 0 -
              (sortValues values).getD (values.length / 4) 0) < v
      · rw [if_pos hp] at hf
        have hj := Option.some.inj hf
        refine ⟨v, ?_, hp⟩
        rw [← hj]
        exact List.mk_mem_enum_iff_getElem?.mp hjv
      · rw [if_neg hp] at hf
        exact absurd hf (by simp)
    · rintro ⟨v, hv, hp⟩
      exact List.mem_filterMap.mpr
        ⟨(i, v), List.mk_mem_enum_iff_getElem?.mpr hv, by rw [if_pos hp]⟩
  · norm_num [detect_outliers, sortValues, List.insertionSort, List.orderedInsert,
      List.enum, List.enumFrom, List.filterMap, List.getD]

/-- C6 (witness).  The characterization applied to the concrete list
[1,2,3,4,5,100] at index 5. -/
theorem c6_detect_outliers_witness :
    5 ∈ detect_outliers [1, 2, 3, 4, 5, 100] ↔
      ∃ v, ([1, 2, 3, 4, 5, 100] : List ℚ)[5]? = some v ∧
        (v < (sortValues [1, 2, 3, 4, 5, 100]).getD
              (([1, 2, 3, 4, 5, 100] : List ℚ).length / 4) 0 -
            1.5 * ((sortValues [1, 2, 3, 4, 5, 100]).getD
                (3 * ([1, 2, 3, 4, 5, 100] : List ℚ).length / 4) 0 -
              (sortValues [1, 2, 3, 4, 5, 100]).getD
                (([1, 2, 3, 4, 5, 100] : List ℚ).length / 4) 0) ∨
         (sortValues [1, 2, 3, 4, 5, 100]).getD
              (3 * ([1, 2, 3, 4, 5, 100] : List ℚ).length / 4) 0 +
            1.5 * ((sortValues [1, 2, 3, 4, 5, 100]).getD
                (3 * ([1, 2, 3, 4, 5, 100] : List ℚ).length / 4) 0 -
              (sortValues [1, 2, 3, 4, 5, 100]).getD
                (([1, 2, 3, 4, 5, 100] : List ℚ).length / 4) 0) < v) :=
  c6_detect_outliers.2.2.1 [1, 2, 3, 4, 5, 100] (by norm_num) 5

/-- C7.  `EvaluationResult::calculate_statistics` on a non-empty value
list: the mean is the arithmetic average, the variance (the square of the
stored standard deviation) divides by n — the population form — and the
median is the middle element of an ascending sorted permutation of the
values for odd n and the average of the two middle elements for even n;
in particular mean([1..5]) = 3, median([1..5]) = 3 and
median([1,2,3,4]) = 5/2.  (The caller's list is untouched: the model is a
pure function of the values, sorting only a copy.) -/
theorem c7_statistics :
    (∀ (r : EvaluationResult) (values : List ℚ), values ≠ [] →
      (r.calculate_statistics values).mean = values.sum / (values.length : ℚ) ∧
      (r.calculate_statistics values).std_sq =
        (values.map (fun v => (v - values.sum / (values.length : ℚ)) ^ 2)).sum /
          (values.length : ℚ) ∧
      (values.length % 2 = 1 →
        (r.calculate_statistics values).median =
          (sortValues values).getD (values.length / 2) 0) ∧
      (values.length % 2 = 0 →
        (r.calculate_statistics values).median =
          ((sortValues values).getD (values.length / 2 - 1) 0 +
           (sortValues values).getD (values.length / 2) 0) / 2) ∧
      List.Sorted (· ≤ ·) (sortValues values) ∧ (sortValues values).Perm values) ∧
    (EvaluationResult.calculate_statistics (EvaluationResult.new "stats" 5)
      [1, 2, 3, 4, 5]).mean = 3 ∧
    (EvaluationResult.calculate_statistics (EvaluationResult.new "stats" 5)
      [1, 2, 3, 4, 5]).median = 3 ∧
    (EvaluationResult.calculate_statistics (EvaluationResult.new "stats" 4)
      [1, 2, 3, 4]).median = 5 / 2 := by
  refine ⟨?_, ?_, ?_, ?_⟩
  · intro r values hne
    have hemp : ¬ (values.isEmpty = true) := fun h => hne (List.isEmpty_iff.mp h)
    have hlen : (sortValues values).length = values.length :=
      (List.perm_insertionSort _ _).length_eq
    simp only [EvaluationResult.calculate_statistics, hlen]
    rw [if_neg hemp]
    refine ⟨rfl, rfl, ?_, ?_, List.sorted_insertionSort _ _, List.perm_insertionSort _ _⟩
    · intro hodd
      simp only
      rw [if_neg (by omega)]
    · intro heven
      simp only
      rw [if_pos heven]
  · norm_num [EvaluationResult.calculate_statistics, EvaluationResult.new, sortValues,
      List.insertionSort, List.orderedInsert, List.getD]
  · norm_num [EvaluationResult.calculate_statistics, EvaluationResult.new, sortValues,
      List.insertionSort, List.orderedInsert, List.getD]
  · norm_num [EvaluationResult.calculate_statistics, EvaluationResult.new, sortValues,
      List.insertionSort, List.orderedInsert, List.getD]

/-- C7 (witness).  The mean equation at the concrete list [2, 4]. -/
theorem c7_statistics_witness :
    ((EvaluationResult.new "w" 2).calculate_statistics [2, 4]).mean =
      ([2, 4] : List ℚ).sum / ((([2, 4] : List ℚ).length : ℕ) : ℚ) :=
  (c7_statistics.1 (EvaluationResult.new "w" 2) [2, 4] (by simp)).1

/-- C8.  `DigitalObject::from_file`: content containing none of the four
dialect marker strings and not beginning with an XML declaration loads as
plain Text — the object keeps the whole content as its text and has an
empty region sequence; content whose detection yields Unknown fails to
load. -/
theorem c8_plain_text_load :
    (∀ (parseAltoXml : Str → Option (List AltoBlockSrc)) (parsePageXml : Str → Option PageDoc)
        (fp : Option String) (content : Str),
      strContains content marker_alto1 = false → strContains content marker_alto2 = false →
      strContains content marker_page1 = false → strContains content marker_page2 = false →
      marker_xml.isPrefixOf content = false →
      DigitalObject.from_file parseAltoXml parsePageXml fp content =
        .ok { format_type := .Text, file_path := fp, text_content := content, regions := [] }) ∧
    (∀ (parseAltoXml : Str → Option (List AltoBlockSrc)) (parsePageXml : Str → Option PageDoc)
        (fp : Option String) (content : Str),
      detect_format content = .Unknown →
      DigitalObject.from_file parseAltoXml parsePageXml fp content = .error .FormatErr) := by
  constructor
  · intro pa pp fp content h1 h2 h3 h4 h5
    have hdet : detect_format content = .Text := by
      unfold detect_format
      rw [h1, h2, h3, h4, h5]
      simp
    simp only [DigitalObject.from_file, hdet]
    rfl
  · intro pa pp fp content h
    simp only [DigitalObject.from_file, h]

/-- C8 (witness).  Plain-text load of the content "hi" and the failing
load of the bare XML declaration (which detects as Unknown). -/
theorem c8_plain_text_load_witness :
    DigitalObject.from_file (fun _ => none) (fun _ => none) none ['h', 'i'] =
      .ok { format_type := .Text, file_path := none, text_content := ['h', 'i'],
            regions := [] } ∧
    DigitalObject.from_file (fun _ => none) (fun _ => none) none marker_xml =
      .error .FormatErr :=
  ⟨c8_plain_text_load.1 _ _ none ['h', 'i']
      (by decide) (by decide) (by decide) (by decide) (by decide),
   c8_plain_text_load.2 _ _ none marker_xml (by decide)⟩

/-- C10.  `DigitalObject::get_statistics` reports n_chars as the UTF-8
byte length of the stored text (for the one-character text "é" that is 2,
not the character count 1), and n_lines / n_words as the sums of line and
word counts over all regions. -/
theorem c10_document_statistics :
    (∀ d : DigitalObject,
      d.get_statistics.n_chars = utf8Len d.text_content ∧
      d.get_statistics.n_lines = (d.regions.map (fun r => r.lines.length)).sum ∧
      d.get_statistics.n_words =
        ((d.regions.map (fun r => r.lines)).flatten.map (fun l => l.words.length)).sum) ∧
    utf8Len ['é'] = 2 ∧ (['é'] : Str).length = 1 :=
  ⟨fun d => ⟨rfl, rfl, rfl⟩, by decide, rfl⟩
